import Mathlib

/-!
Verification of the maitouch serial proxy against its specification.

The development shallowly embeds the three source files:
 * `src/io.rs`     — `skip_until` (a copy of `BufRead::skip_until`);
 * `src/main.rs`   — `read_packet`, `get_command_type`, the `stat_mode`
   producer / watcher loops, and `drain_and_reset`;
 * `src/touchbuffer.rs` — the packed 64-bit `TouchBuffer` slot.

Bytes are modelled as `Nat` (with `< 256` hypotheses where byte-ness
matters), the 64-bit word as `Nat` reduced `% 2 ^ 64` exactly where the
Rust `u64` wraps.  A `BufRead` stream is a buffered prefix (`pending`)
plus a list of events still to come: each future read yields either a
chunk of bytes or an I/O error of some kind.  Loops in the source are
given explicit fuel; a result of `none` means the fuel ran out, so any
`some` result is a faithful finite execution of the source loop.
-/

namespace Maitouch

/-- Kinds of I/O error, as distinguished by the source
(`std::io::ErrorKind`): timeouts and interrupts are handled specially,
all other kinds behave alike and carry an opaque code. -/
inductive ErrKind where
  | timedOut
  | interrupted
  | other (code : Nat)
deriving DecidableEq

/-- Result of an I/O operation: `std::io::Result`. -/
inductive IOR (α : Type) where
  | ok (val : α)
  | err (e : ErrKind)
deriving DecidableEq

/-- One event a byte stream can produce on a `fill_buf` call:
a chunk of bytes (empty = end of data) or an error. -/
inductive Ev where
  | chunk (bs : List Nat)
  | ioerr (e : ErrKind)
deriving DecidableEq

/-- A buffered reader (`BufRead`): bytes already buffered, then
the events future reads will produce.  An exhausted reader keeps
returning empty reads, as a `Read` at end of data does. -/
structure Rdr where
  pending : List Nat
  future : List Ev
deriving DecidableEq

/-- A reader over a plain byte sequence: the whole stream is buffered. -/
def Rdr.ofBytes (bs : List Nat) : Rdr := ⟨bs, []⟩

/-- `fill_buf`: return the buffered bytes if any; otherwise realise the
next event.  Returns the available bytes without consuming them. -/
def fillBuf (r : Rdr) : IOR (List Nat) × Rdr :=
  if r.pending = [] then
    match r.future with
    | [] => (.ok [], r)
    | .chunk bs :: rest => (.ok bs, ⟨bs, rest⟩)
    | .ioerr e :: rest => (.err e, ⟨[], rest⟩)
  else (.ok r.pending, r)

/-- `consume`: drop `n` bytes from the buffer. -/
def Rdr.consume (r : Rdr) (n : Nat) : Rdr := ⟨r.pending.drop n, r.future⟩

/-- `memchr::memchr`: index of the first occurrence of `delim`. -/
def memchr (delim : Nat) : List Nat → Option Nat
  | [] => none
  | x :: xs => if x = delim then some 0 else (memchr delim xs).map (· + 1)

/-- `io::skip_until` (src/io.rs): discard bytes up to and including the
first occurrence of `delim`, retrying interrupted reads, returning the
count of bytes discarded.  Stops with `Ok` when a read yields no bytes.
`fuel` bounds the number of loop iterations. -/
def skip_until (delim : Nat) : Nat → Rdr → Nat → Option (IOR Nat × Rdr)
  | 0, _, _ => none
  | fuel + 1, r, read =>
    match fillBuf r with
    | (.err .interrupted, r') => skip_until delim fuel r' read
    | (.err e, r') => some (.err e, r')
    | (.ok available, r') =>
      match memchr delim available with
      | some i => some (.ok (read + (i + 1)), r'.consume (i + 1))
      | none =>
        if available.length = 0 then some (.ok read, r'.consume 0)
        else skip_until delim fuel (r'.consume available.length)
          (read + available.length)

/-- `BufRead::read_until` (std): append bytes up to and including the
first occurrence of `delim` to `buf`, retrying interrupted reads,
returning the count of bytes appended.  Stops with `Ok` when a read
yields no bytes. -/
def read_until (delim : Nat) :
    Nat → List Nat → Rdr → Nat → Option (IOR Nat × List Nat × Rdr)
  | 0, _, _, _ => none
  | fuel + 1, buf, r, read =>
    match fillBuf r with
    | (.err .interrupted, r') => read_until delim fuel buf r' read
    | (.err e, r') => some (.err e, buf, r')
    | (.ok available, r') =>
      match memchr delim available with
      | some i =>
        some (.ok (read + (i + 1)), buf ++ available.take (i + 1),
          r'.consume (i + 1))
      | none =>
        if available.length = 0 then some (.ok read, buf, r'.consume 0)
        else read_until delim fuel (buf ++ available)
          (r'.consume available.length) (read + available.length)

/-- A delimiter pair (`PacketDelimiter` in src/main.rs). -/
structure PacketDelimiter where
  openByte : Nat
  closeByte : Nat

/-- `ALLS_PACKET`: the display link uses braces. -/
def ALLS_PACKET : PacketDelimiter := ⟨123, 125⟩

/-- `ADX_PACKET`: the sensor link uses parentheses. -/
def ADX_PACKET : PacketDelimiter := ⟨40, 41⟩

/-- The first loop of `read_packet`: call `skip_until`, retrying as long
as it fails with a timeout. -/
def skipRetry (delim inner : Nat) : Nat → Rdr → Option (IOR Nat × Rdr)
  | 0, _ => none
  | fuel + 1, r =>
    match skip_until delim inner r 0 with
    | none => none
    | some (.err .timedOut, r') => skipRetry delim inner fuel r'
    | some (.err e, r') => some (.err e, r')
    | some (.ok n, r') => some (.ok n, r')

/-- The second loop of `read_packet`: call `read_until`, retrying as
long as it fails with a timeout; the buffer keeps what was appended. -/
def readRetry (delim inner : Nat) :
    Nat → List Nat → Rdr → Option (IOR Nat × List Nat × Rdr)
  | 0, _, _ => none
  | fuel + 1, buf, r =>
    match read_until delim inner buf r 0 with
    | none => none
    | some (.err .timedOut, buf', r') => readRetry delim inner fuel buf' r'
    | some (.err e, buf', r') => some (.err e, buf', r')
    | some (.ok n, buf', r') => some (.ok n, buf', r')

/-- `read_packet` (src/main.rs): clear the buffer, seed it with the open
delimiter, skip to the open delimiter (retrying timeouts), then append
up to and including the close delimiter (retrying timeouts). -/
def read_packet (fuel : Nat) (r : Rdr) (p : PacketDelimiter) :
    Option (IOR Unit × List Nat × Rdr) :=
  match skipRetry p.openByte fuel fuel r with
  | none => none
  | some (.err e, r') => some (.err e, [p.openByte], r')
  | some (.ok _, r') =>
    match readRetry p.closeByte fuel fuel [p.openByte] r' with
    | none => none
    | some (.err e, buf', r'') => some (.err e, buf', r'')
    | some (.ok _, buf', r'') => some (.ok (), buf', r'')

/-- `HALT_COMMAND`: the bytes of `{HALT}`. -/
def HALT_COMMAND : List Nat := [123, 72, 65, 76, 84, 125]

/-- `RESET_COMMAND`: the bytes of `{RSET}`. -/
def RESET_COMMAND : List Nat := [123, 82, 83, 69, 84, 125]

/-- `STAT_COMMAND`: the bytes of `{STAT}`. -/
def STAT_COMMAND : List Nat := [123, 83, 84, 65, 84, 125]

/-- `CommandType` (src/main.rs). -/
inductive CommandType where
  | halt
  | stat
  | reset
  | config
deriving DecidableEq

/-- `get_command_type` (src/main.rs): exact slice match against the
three reserved literals, in source order; anything else is `Config`. -/
def get_command_type (buffer : List Nat) : CommandType :=
  if buffer = HALT_COMMAND then .halt
  else if buffer = STAT_COMMAND then .stat
  else if buffer = RESET_COMMAND then .reset
  else .config

/-- `TouchBuffer::store` (src/touchbuffer.rs): reject buffers whose
length is not 9; otherwise fold the seven payload bytes `buf[1..8]`
into a `u64` by `combined |= val; combined <<= 8`. -/
def tbStore (data : Nat) (buf : List Nat) : Nat :=
  if buf.length ≠ 9 then data
  else ((buf.drop 1).take 7).foldl
    (fun combined val => ((combined ||| val) <<< 8) % 2 ^ 64) 0

/-- `u64::to_be_bytes`: the eight bytes of the word, most significant
first. -/
def to_be_bytes (v : Nat) : List Nat :=
  [v / 2 ^ 56 % 256, v / 2 ^ 48 % 256, v / 2 ^ 40 % 256, v / 2 ^ 32 % 256,
   v / 2 ^ 24 % 256, v / 2 ^ 16 % 256, v / 2 ^ 8 % 256, v % 256]

/-- `TouchBuffer::load` (src/touchbuffer.rs): clear the caller's buffer
(`buf` is therefore ignored), push `(`, append the first seven bytes of
the word's big-endian representation, push `)`. -/
def tbLoad (data : Nat) (buf : List Nat) : List Nat :=
  [] ++ [40] ++ (to_be_bytes data).take 7 ++ [41]

/-- The producer's publish step in `stat_mode` (src/main.rs): if the
framed packet is not exactly 9 bytes the slot write is skipped
(`continue`), otherwise the 9 bytes are copied into the lock-guarded
array. -/
def lockPublish (state buf : List Nat) : List Nat :=
  if buf.length ≠ 9 then state else buf

/-- The lock-guarded slot after a sequence of publishes, starting from
the all-zero array `[0u8; TOUCH_PACKET_SIZE]`. -/
def lockRun (pubs : List (List Nat)) : List Nat :=
  pubs.foldl lockPublish (List.replicate 9 0)

/-- The packed-word slot after the same sequence of publishes, starting
from the `Default` word 0. -/
def packRun (pubs : List (List Nat)) : Nat :=
  pubs.foldl tbStore 0

/-- The watcher loop of `stat_mode` (src/main.rs): frame a display-link
packet; on a non-timeout error return (leaving the flag as it is); on a
`Halt` frame store `false` into `run_flag` and break; otherwise keep
looping.  Returns the value of `run_flag` when the watcher exits. -/
def watcherLoop (inner : Nat) : Nat → Rdr → Bool → Option (Bool × Rdr)
  | 0, _, _ => none
  | fuel + 1, r, flag =>
    match read_packet inner r ALLS_PACKET with
    | none => none
    | some (.err .timedOut, _, r') => watcherLoop inner fuel r' flag
    | some (.err _, _, r') => some (flag, r')
    | some (.ok _, buf', r') =>
      if get_command_type buf' = CommandType.halt then some (false, r')
      else watcherLoop inner fuel r' flag

/-- The read-and-discard loop of `drain_and_reset` (src/main.rs):
`read_until(')')` into a scratch buffer; on success clear it and loop;
on a timeout return `Ok(())`; on any other error return it. -/
def drainLoop (inner : Nat) : Nat → Rdr → Option (IOR Unit × Rdr)
  | 0, _ => none
  | fuel + 1, r =>
    match read_until 41 inner [] r 0 with
    | none => none
    | some (.ok _, _, r') => drainLoop inner fuel r'
    | some (.err .timedOut, _, r') => some (.ok (), r')
    | some (.err e, _, r') => some (.err e, r')

/-- `drain_and_reset` (src/main.rs): write `{RSET}` then `{HALT}` to the
sensor link, then drain until a read times out.  The third component is
everything written to the sensor link. -/
def drain_and_reset (inner fuel : Nat) (r : Rdr) :
    Option (IOR Unit × Rdr × List Nat) :=
  match drainLoop inner fuel r with
  | none => none
  | some (res, r') => some (res, r', RESET_COMMAND ++ HALT_COMMAND)

/-- `true` when the stream has no error events ahead: every future read
succeeds (possibly with zero bytes, i.e. end of data). -/
def errFreeB (r : Rdr) : Bool :=
  r.future.all fun e =>
    match e with
    | .ioerr _ => false
    | .chunk _ => true

/-! ## Lemmas about memchr -/

/-- `memchr` finds the first occurrence of the delimiter. -/
theorem memchr_append_cons (d : Nat) (g t : List Nat) (hg : d ∉ g) :
    memchr d (g ++ d :: t) = some g.length := by
  induction g with
  | nil => simp [memchr]
  | cons x xs ih =>
    simp only [List.mem_cons, not_or] at hg
    have hx : x ≠ d := fun h => hg.1 h.symm
    simp [memchr, hx, ih hg.2]

/-- `memchr` returns `none` when the delimiter is absent. -/
theorem memchr_eq_none (d : Nat) (l : List Nat) (h : d ∉ l) :
    memchr d l = none := by
  induction l with
  | nil => rfl
  | cons x xs ih =>
    simp only [List.mem_cons, not_or] at h
    have hx : x ≠ d := fun hc => h.1 hc.symm
    simp [memchr, hx, ih h.2]

/-- A `memchr` hit decomposes the list around the first delimiter. -/
theorem memchr_some (d : Nat) (l : List Nat) (i : Nat)
    (h : memchr d l = some i) :
    ∃ g t, l = g ++ d :: t ∧ g.length = i ∧ d ∉ g := by
  induction l generalizing i with
  | nil => simp [memchr] at h
  | cons x xs ih =>
    by_cases hx : x = d
    · subst hx
      simp [memchr] at h
      exact ⟨[], xs, rfl, by simpa using h, by simp⟩
    · simp only [memchr, if_neg hx] at h
      rcases hmem : memchr d xs with _ | j
      · simp [hmem] at h
      · simp only [hmem, Option.map] at h
        have hij : j + 1 = i := by
          have := Option.some.inj h
          omega
        obtain ⟨g, t, hl, hlen, hni⟩ := ih j hmem
        refine ⟨x :: g, t, by rw [hl]; simp, ?_, ?_⟩
        · simp only [List.length_cons, hlen]
          omega
        · simp only [List.mem_cons, not_or]
          exact ⟨fun hc => hx hc.symm, hni⟩

/-! ## Lemmas about exhausted streams (no events ahead) -/

/-- On a stream with no events ahead, `fill_buf` returns the buffered
bytes (possibly none, i.e. end of data) and never fails. -/
theorem fillBuf_nofut (p0 : List Nat) :
    fillBuf ⟨p0, []⟩ = (.ok p0, ⟨p0, []⟩) := by
  by_cases h : p0 = []
  · subst h; rfl
  · simp [fillBuf, h]

/-- On a stream with no events ahead, `skip_until` can only succeed, and
leaves a stream with no events ahead. -/
theorem skip_until_nofut (d : Nat) : ∀ (inner acc : Nat) (p0 : List Nat)
    (res : IOR Nat × Rdr), skip_until d inner ⟨p0, []⟩ acc = some res →
    ∃ n p1, res = (.ok n, ⟨p1, []⟩) := by
  intro inner
  induction inner with
  | zero => intro acc p0 res h; simp [skip_until] at h
  | succ m ih =>
    intro acc p0 res h
    simp only [skip_until, fillBuf_nofut] at h
    rcases hm : memchr d p0 with _ | i
    · rw [hm] at h
      by_cases h0 : p0.length = 0
      · simp only [h0, if_pos rfl] at h
        exact ⟨acc, p0.drop 0, by simp [← Option.some.inj h, Rdr.consume]⟩
      · simp only [h0, if_neg h0] at h
        exact ih _ _ _ h
    · rw [hm] at h
      exact ⟨acc + (i + 1), p0.drop (i + 1),
        by simp [← Option.some.inj h, Rdr.consume]⟩

/-- The retry loop around `skip_until` on a stream with no events ahead:
any result is a success leaving a stream with no events ahead. -/
theorem skipRetry_nofut (d inner fuel : Nat) (p0 : List Nat)
    (res : IOR Nat × Rdr) (h : skipRetry d inner fuel ⟨p0, []⟩ = some res) :
    ∃ n p1, res = (.ok n, ⟨p1, []⟩) := by
  cases fuel with
  | zero => simp [skipRetry] at h
  | succ m =>
    simp only [skipRetry] at h
    rcases hs : skip_until d inner ⟨p0, []⟩ 0 with _ | ⟨ior, r1⟩
    · rw [hs] at h; simp at h
    · obtain ⟨n, p1, hres⟩ := skip_until_nofut d inner 0 p0 (ior, r1) hs
      rw [hs, hres] at h
      simp at h
      exact ⟨n, p1, by simp [← h, (Prod.mk.injEq _ _ _ _).mp hres]⟩

/-- On a stream with no events ahead, `read_until` can only succeed; it
appends some suffix to the buffer, and either that suffix ends with the
delimiter or the stream is exhausted. -/
theorem read_until_nofut (d : Nat) : ∀ (inner acc : Nat) (buf p0 : List Nat)
    (res : IOR Nat × List Nat × Rdr),
    read_until d inner buf ⟨p0, []⟩ acc = some res →
    ∃ n tail p1, res = (.ok n, buf ++ tail, ⟨p1, []⟩) ∧
      ((buf ++ tail).getLast? = some d ∨ p1 = []) := by
  intro inner
  induction inner with
  | zero => intro acc buf p0 res h; simp [read_until] at h
  | succ m ih =>
    intro acc buf p0 res h
    simp only [read_until, fillBuf_nofut] at h
    rcases hm : memchr d p0 with _ | i
    · rw [hm] at h
      by_cases h0 : p0.length = 0
      · have hp0 : p0 = [] := List.length_eq_zero.mp h0
        simp only [h0, if_pos rfl] at h
        refine ⟨acc, [], [], ?_, Or.inr rfl⟩
        subst hp0
        simp [← Option.some.inj h, Rdr.consume]
      · simp only [h0, if_neg h0] at h
        obtain ⟨n, tail, p1, hres, hdisj⟩ := ih _ _ _ _ h
        refine ⟨n, p0 ++ tail, p1, ?_, ?_⟩
        · rw [hres]; simp
        · rcases hdisj with hl | hr
          · left; rw [List.append_assoc] at hl; exact hl
          · right; exact hr
    · rw [hm] at h
      obtain ⟨g, t, hp0, hlen, hni⟩ := memchr_some d p0 i hm
      refine ⟨acc + (i + 1), p0.take (i + 1), p0.drop (i + 1), ?_, ?_⟩
      · simp [← Option.some.inj h, Rdr.consume]
      · left
        have htake : p0.take (i + 1) = g ++ [d] := by
          rw [hp0, ← hlen, show d :: t = [d] ++ t by rfl,
            ← List.append_assoc, List.take_append_of_le_length (by simp)]
          simp
        rw [htake, ← List.append_assoc]
        exact List.getLast?_concat _

/-- The retry loop around `read_until` on a stream with no events ahead:
same conclusion as `read_until_nofut`. -/
theorem readRetry_nofut (d inner fuel : Nat) (buf p0 : List Nat)
    (res : IOR Nat × List Nat × Rdr)
    (h : readRetry d inner fuel buf ⟨p0, []⟩ = some res) :
    ∃ n tail p1, res = (.ok n, buf ++ tail, ⟨p1, []⟩) ∧
      ((buf ++ tail).getLast? = some d ∨ p1 = []) := by
  cases fuel with
  | zero => simp [readRetry] at h
  | succ m =>
    simp only [readRetry] at h
    rcases hs : read_until d inner buf ⟨p0, []⟩ 0 with _ | ⟨ior, buf1, r1⟩
    · rw [hs] at h; simp at h
    · obtain ⟨n, tail, p1, hres, hdisj⟩ :=
        read_until_nofut d inner 0 buf p0 (ior, buf1, r1) hs
      rw [hs, hres] at h
      simp at h
      exact ⟨n, tail, p1, by simp [← h], hdisj⟩

/-! ## Concrete evaluations of the embedding -/

example :
    read_packet 3 (Rdr.ofBytes [1, 2, 123, 72, 65, 76, 84, 125, 9])
      ALLS_PACKET =
    some (.ok (), [123, 72, 65, 76, 84, 125], ⟨[9], []⟩) := by decide

example :
    read_packet 3 (Rdr.ofBytes []) ALLS_PACKET =
    some (.ok (), [123], ⟨[], []⟩) := by decide

example : get_command_type [123, 72, 65, 76, 84, 125] = .halt := by decide

example : tbStore 0 [40, 65, 66, 67, 68, 69, 70, 71, 41] =
    65 * 2 ^ 56 + 66 * 2 ^ 48 + 67 * 2 ^ 40 + 68 * 2 ^ 32 + 69 * 2 ^ 24 +
    70 * 2 ^ 16 + 71 * 2 ^ 8 := by decide

example :
    tbLoad (tbStore 0 [40, 65, 66, 67, 68, 69, 70, 71, 41]) [] =
    [40, 65, 66, 67, 68, 69, 70, 71, 41] := by decide

/-! ## Arithmetic of the packed 64-bit encoding -/

/-- Bitwise or of disjoint parts is addition: `a * 2 ^ n ||| b = a * 2 ^ n + b`
when `b < 2 ^ n`. -/
theorem lor_mul_two_pow (n : Nat) : ∀ a b : Nat, b < 2 ^ n →
    a * 2 ^ n ||| b = a * 2 ^ n + b := by
  induction n with
  | zero =>
    intro a b hb
    have hb0 : b = 0 := by simpa using hb
    subst hb0
    simp
  | succ n ih =>
    intro a b hb
    have hp : (2 : Nat) ^ (n + 1) = 2 * 2 ^ n := by rw [Nat.pow_succ]; ring
    have hb2 : b / 2 < 2 ^ n := by omega
    have hbit := Nat.bit_testBit_zero_shiftRight_one b
    rw [Nat.shiftRight_one] at hbit
    have h1 : a * 2 ^ (n + 1) = Nat.bit false (a * 2 ^ n) := by
      rw [hp, Nat.bit_val]
      simp [Bool.toNat]
      ring
    calc a * 2 ^ (n + 1) ||| b
        = Nat.bit false (a * 2 ^ n) ||| Nat.bit (b.testBit 0) (b / 2) := by
          rw [← h1, hbit]
      _ = Nat.bit (false || b.testBit 0) (a * 2 ^ n ||| b / 2) :=
          Nat.lor_bit false (a * 2 ^ n) (b.testBit 0) (b / 2)
      _ = Nat.bit (b.testBit 0) (a * 2 ^ n + b / 2) := by
          rw [Bool.false_or, ih a (b / 2) hb2]
      _ = a * 2 ^ (n + 1) + b := by
          rw [Nat.bit_val] at hbit ⊢
          rw [hp]
          have harith : a * (2 * 2 ^ n) = 2 * (a * 2 ^ n) := by ring
          rw [harith]
          omega

/-- Specialisation to one byte: `a * 256 ||| b = a * 256 + b` for `b < 256`. -/
theorem lor_mul_256 (a b : Nat) (hb : b < 256) :
    a * 256 ||| b = a * 256 + b := by
  have h := lor_mul_two_pow 8 a b (by norm_num [hb])
  norm_num at h
  exact h

/-- The word `TouchBuffer::store` computes for a well-formed frame: the
seven payload bytes occupy the most-significant seven bytes, in order,
and the least-significant byte is zero. -/
theorem tbStore_frame (s b1 b2 b3 b4 b5 b6 b7 : Nat)
    (h1 : b1 < 256) (h2 : b2 < 256) (h3 : b3 < 256) (h4 : b4 < 256)
    (h5 : b5 < 256) (h6 : b6 < 256) (h7 : b7 < 256) :
    tbStore s [40, b1, b2, b3, b4, b5, b6, b7, 41] =
      b1 * 2 ^ 56 + b2 * 2 ^ 48 + b3 * 2 ^ 40 + b4 * 2 ^ 32 + b5 * 2 ^ 24 +
        b6 * 2 ^ 16 + b7 * 2 ^ 8 := by
  simp only [tbStore, List.length_cons, List.drop, List.take, List.foldl,
    Nat.shiftLeft_eq]
  norm_num
  rw [Nat.mod_eq_of_lt (a := b1 * 256) (by omega)]
  rw [lor_mul_256 b1 b2 h2]
  rw [Nat.mod_eq_of_lt (a := (b1 * 256 + b2) * 256) (by omega)]
  rw [lor_mul_256 (b1 * 256 + b2) b3 h3]
  rw [Nat.mod_eq_of_lt (a := ((b1 * 256 + b2) * 256 + b3) * 256) (by omega)]
  rw [lor_mul_256 ((b1 * 256 + b2) * 256 + b3) b4 h4]
  rw [Nat.mod_eq_of_lt
    (a := (((b1 * 256 + b2) * 256 + b3) * 256 + b4) * 256) (by omega)]
  rw [lor_mul_256 (((b1 * 256 + b2) * 256 + b3) * 256 + b4) b5 h5]
  rw [Nat.mod_eq_of_lt
    (a := ((((b1 * 256 + b2) * 256 + b3) * 256 + b4) * 256 + b5) * 256)
    (by omega)]
  rw [lor_mul_256 ((((b1 * 256 + b2) * 256 + b3) * 256 + b4) * 256 + b5) b6 h6]
  rw [Nat.mod_eq_of_lt
    (a := (((((b1 * 256 + b2) * 256 + b3) * 256 + b4) * 256 + b5) * 256 + b6) *
      256) (by omega)]
  rw [lor_mul_256
    (((((b1 * 256 + b2) * 256 + b3) * 256 + b4) * 256 + b5) * 256 + b6) b7 h7]
  rw [Nat.mod_eq_of_lt (by omega)]
  ring

/-- Round trip through the packed slot: storing a well-formed frame and
loading gives back exactly that frame, whatever was stored before and
whatever the observer's buffer held. -/
theorem tb_roundtrip_list (s : Nat) (junk p : List Nat) (hp : p.length = 7)
    (hb : ∀ x ∈ p, x < 256) :
    tbLoad (tbStore s (40 :: p ++ [41])) junk = 40 :: p ++ [41] := by
  rcases p with _ | ⟨b1, _ | ⟨b2, _ | ⟨b3, _ | ⟨b4, _ | ⟨b5, _ | ⟨b6, _ |
    ⟨b7, _ | ⟨b8, t⟩⟩⟩⟩⟩⟩⟩⟩ <;> simp_all
  obtain ⟨g1, g2, g3, g4, g5, g6, g7⟩ := hb
  rw [tbStore_frame s b1 b2 b3 b4 b5 b6 b7 g1 g2 g3 g4 g5 g6 g7]
  simp only [tbLoad, to_be_bytes, List.take, List.nil_append, List.cons_append]
  norm_num
  refine ⟨?_, ?_, ?_, ?_, ?_, ?_, ?_⟩ <;> omega

/-! ## Framer lemmas -/

/-- One `skip_until` call on a buffered stream containing the delimiter:
everything up to and including the first delimiter is consumed. -/
theorem skip_until_found (fuel d acc : Nat) (g t : List Nat) (fut : List Ev)
    (hg : d ∉ g) :
    skip_until d (fuel + 1) ⟨g ++ d :: t, fut⟩ acc =
      some (.ok (acc + (g.length + 1)), ⟨t, fut⟩) := by
  have hne : g ++ d :: t ≠ [] := by simp
  simp only [skip_until, fillBuf, hne, if_false, memchr_append_cons d g t hg,
    Rdr.consume]
  have hdrop : (g ++ d :: t).drop (g.length + 1) = t := by
    rw [show g.length + 1 = g.length + 1 by rfl, ← List.drop_drop]
    simp
  simp [hdrop]

/-- One `read_until` call on a buffered stream containing the delimiter:
everything up to and including the first delimiter is appended. -/
theorem read_until_found (fuel d acc : Nat) (buf g t : List Nat)
    (fut : List Ev) (hg : d ∉ g) :
    read_until d (fuel + 1) buf ⟨g ++ d :: t, fut⟩ acc =
      some (.ok (acc + (g.length + 1)), buf ++ (g ++ [d]), ⟨t, fut⟩) := by
  have hne : g ++ d :: t ≠ [] := by simp
  simp only [read_until, fillBuf, hne, if_false, memchr_append_cons d g t hg,
    Rdr.consume]
  have hdrop : (g ++ d :: t).drop (g.length + 1) = t := by
    rw [← List.drop_drop]
    simp
  have htake : (g ++ d :: t).take (g.length + 1) = g ++ [d] := by
    rw [show d :: t = [d] ++ t by rfl, ← List.append_assoc]
    rw [List.take_append_of_le_length (by simp)]
    simp
  simp [hdrop, htake]

/-! ## Theorems -/

/-- Claim C1: on a byte stream made of leading noise free of the open
delimiter, then a well-formed delimited frame, then anything, the
framer returns `Ok` and the caller's buffer holds exactly that frame —
open delimiter, the bytes between the delimiters unchanged, close
delimiter — with the noise discarded. -/
theorem C1_framer_extracts_frame (p : PacketDelimiter)
    (noise mid rest : List Nat) (f : Nat)
    (h1 : p.openByte ∉ noise) (h2 : p.closeByte ∉ mid) :
    read_packet (f + 1)
      (Rdr.ofBytes (noise ++ p.openByte :: (mid ++ p.closeByte :: rest))) p =
      some (.ok (), p.openByte :: (mid ++ [p.closeByte]), ⟨rest, []⟩) := by
  simp only [read_packet, Rdr.ofBytes, skipRetry,
    skip_until_found f p.openByte 0 noise (mid ++ p.closeByte :: rest) [] h1]
  simp only [readRetry,
    read_until_found f p.closeByte 0 [p.openByte] mid rest [] h2]
  simp

theorem C1_witness :
    ((123 : Nat) ∉ ([1, 2] : List Nat) ∧
      (125 : Nat) ∉ ([72, 65, 76, 84] : List Nat)) ∧
    read_packet 1
      (Rdr.ofBytes ([1, 2] ++ (123 : Nat) :: ([72, 65, 76, 84] ++
        (125 : Nat) :: [9, 9]))) ALLS_PACKET =
      some (.ok (), (123 : Nat) :: ([72, 65, 76, 84] ++ [(125 : Nat)]),
        ⟨[9, 9], []⟩) :=
  ⟨⟨by decide, by decide⟩,
    C1_framer_extracts_frame ALLS_PACKET [1, 2] [72, 65, 76, 84] [9, 9] 0
      (by decide) (by decide)⟩

/-- Claim C7 fails as stated: on a stream that reaches end of data
(reads succeeding with zero bytes) before any delimiter, `read_packet`
returns `Ok` with a buffer holding only the open delimiter — a partial
frame, not ending with the close delimiter, is exposed to the caller. -/
theorem C7_counterexample :
    read_packet 1 (Rdr.ofBytes []) ALLS_PACKET =
      some (.ok (), [123], Rdr.ofBytes []) ∧
    ([(123 : Nat)].getLast? ≠ some 125) := by decide

/-- Claim C7 (amended): whenever `read_packet` returns `Ok` on a byte
stream, the caller's buffer starts with the open delimiter byte, and it
ends with the close delimiter byte unless the stream was exhausted
before a close delimiter was found (in which case a partial frame is
returned). -/
theorem C7_ok_implies_framed (bytes : List Nat) (p : PacketDelimiter)
    (fuel : Nat) (buf : List Nat) (r' : Rdr)
    (h : read_packet fuel (Rdr.ofBytes bytes) p = some (.ok (), buf, r')) :
    buf.head? = some p.openByte ∧
    (buf.getLast? = some p.closeByte ∨ r'.pending = []) := by
  rw [read_packet, Rdr.ofBytes] at h
  rcases hs : skipRetry p.openByte fuel fuel ⟨bytes, []⟩ with _ | ⟨ior, r1⟩
  · rw [hs] at h; simp at h
  · obtain ⟨n, p1, hres⟩ := skipRetry_nofut p.openByte fuel fuel bytes _ hs
    rw [hs, hres] at h
    simp only at h
    rcases hr : readRetry p.closeByte fuel fuel [p.openByte] ⟨p1, []⟩ with
      _ | ⟨ior2, buf2, r2⟩
    · rw [hr] at h; simp at h
    · obtain ⟨n2, tail, p2, hres2, hdisj⟩ :=
        readRetry_nofut p.closeByte fuel fuel [p.openByte] p1 _ hr
      rw [hr, hres2] at h
      simp only [Option.some.injEq, Prod.mk.injEq] at h
      obtain ⟨-, hbuf, hr'⟩ := h
      subst hbuf
      subst hr'
      refine ⟨by simp, ?_⟩
      rcases hdisj with hl | hp2
      · exact Or.inl hl
      · right; rw [← hp2]

theorem C7_witness :
    read_packet 1 (Rdr.ofBytes [1, 123, 72, 125, 3]) ALLS_PACKET =
      some (.ok (), [123, 72, 125], ⟨[3], []⟩) ∧
    ([(123 : Nat), 72, 125].head? = some 123 ∧
      ([(123 : Nat), 72, 125].getLast? = some 125 ∨
        (⟨[3], []⟩ : Rdr).pending = [])) :=
  ⟨by decide,
    C7_ok_implies_framed [1, 123, 72, 125, 3] ALLS_PACKET 1
      [123, 72, 125] ⟨[3], []⟩ (by decide)⟩

/-- Claim C4 fails on the code: when the watcher's display-link read
fails with a non-timeout error, the watcher returns WITHOUT storing
`false` into `run_flag` — only the `Halt` branch does.  The first
conjunct evaluates the watcher on a stream whose read fails with a
non-timeout error: it exits with the shutdown flag still `true`
("running"), so the producer and publisher loops, which iterate while
the flag is `true`, do not stop and the session does not end.  The
second conjunct shows the contrast with an explicit `{HALT}` frame,
after which the flag is `false` ("halted"). -/
theorem C4_watcher_error_leaves_flag_running :
    watcherLoop 1 1 ⟨[], [Ev.ioerr (ErrKind.other 0)]⟩ true =
      some (true, ⟨[], []⟩) ∧
    watcherLoop 2 1 ⟨[], [Ev.chunk [123, 72, 65, 76, 84, 125]]⟩ true =
      some (false, ⟨[], []⟩) := by decide

/-- Claim C2: `get_command_type` classifies a buffer as `Halt` iff it is
exactly the 6 bytes of `{HALT}`, as `Stat` iff exactly `{STAT}`, as
`Reset` iff exactly `{RSET}`, and as `Config` for every other byte
content (including the empty buffer, truncated literals, literals with
trailing bytes and differently-cased variants). -/
theorem C2_classifier_exact (buffer : List Nat) :
    (get_command_type buffer = CommandType.halt ↔ buffer = HALT_COMMAND) ∧
    (get_command_type buffer = CommandType.stat ↔ buffer = STAT_COMMAND) ∧
    (get_command_type buffer = CommandType.reset ↔ buffer = RESET_COMMAND) ∧
    (get_command_type buffer = CommandType.config ↔
      buffer ≠ HALT_COMMAND ∧ buffer ≠ STAT_COMMAND ∧
        buffer ≠ RESET_COMMAND) := by
  by_cases h1 : buffer = HALT_COMMAND <;>
    by_cases h2 : buffer = STAT_COMMAND <;>
      by_cases h3 : buffer = RESET_COMMAND <;>
        simp_all [get_command_type, HALT_COMMAND, STAT_COMMAND, RESET_COMMAND]

/-- Claim C5: publishing a buffer whose length is not 9 leaves the slot
unchanged, in both forms: `TouchBuffer::store` returns the stored word
unmodified, and the producer in `stat_mode` skips the lock-guarded
write. -/
theorem C5_store_rejects_bad_length (data : Nat) (state buf : List Nat)
    (h : buf.length ≠ 9) :
    tbStore data buf = data ∧ lockPublish state buf = state := by
  simp [tbStore, lockPublish, h]

theorem C5_witness :
    ([1, 2, 3] : List Nat).length ≠ 9 ∧
    (tbStore 77 [1, 2, 3] = 77 ∧
      lockPublish (List.replicate 9 5) [1, 2, 3] = List.replicate 9 5) :=
  ⟨by decide, C5_store_rejects_bad_length 77 (List.replicate 9 5) [1, 2, 3]
    (by decide)⟩

/-- Claim C3: publishing a 9-byte frame `(` + 7 payload bytes + `)` into
the Touch-State Slot and observing it yields back exactly those 9 bytes,
through both encodings: `TouchBuffer::store` then `TouchBuffer::load`
(whatever word was stored before and whatever the observer's buffer
held), and the lock-guarded copy-in / copy-out of `stat_mode`. -/
theorem C3_slot_roundtrip (d0 : Nat) (s0 junk p : List Nat)
    (hp : p.length = 7) (hb : ∀ x ∈ p, x < 256) :
    tbLoad (tbStore d0 (40 :: p ++ [41])) junk = 40 :: p ++ [41] ∧
    lockPublish s0 (40 :: p ++ [41]) = 40 :: p ++ [41] := by
  refine ⟨tb_roundtrip_list d0 junk p hp hb, ?_⟩
  simp [lockPublish, hp]

theorem C3_witness :
    (([65, 66, 67, 68, 69, 70, 71] : List Nat).length = 7 ∧
      ∀ x ∈ ([65, 66, 67, 68, 69, 70, 71] : List Nat), x < 256) ∧
    (tbLoad (tbStore 0 (40 :: [65, 66, 67, 68, 69, 70, 71] ++ [41])) [] =
        40 :: [65, 66, 67, 68, 69, 70, 71] ++ [41] ∧
      lockPublish (List.replicate 9 0)
          (40 :: [65, 66, 67, 68, 69, 70, 71] ++ [41]) =
        40 :: [65, 66, 67, 68, 69, 70, 71] ++ [41]) :=
  ⟨⟨by decide, by decide⟩,
    C3_slot_roundtrip 0 (List.replicate 9 0) [] [65, 66, 67, 68, 69, 70, 71]
      (by decide) (by decide)⟩

/-- Claim C8 fails as stated: before the first publish the two slot
forms do NOT yield the same 9 bytes, and the packed form's default is
not the all-zero sample.  The lock-guarded array starts as nine zero
bytes, while `TouchBuffer::load` on the default word yields
`(` + seven zero bytes + `)`. -/
theorem C8_counterexample :
    lockRun [] ≠ tbLoad (packRun []) [] ∧
    tbLoad (packRun []) [] ≠ List.replicate 9 0 ∧
    lockRun [] = List.replicate 9 0 ∧
    tbLoad (packRun []) [] = [40, 0, 0, 0, 0, 0, 0, 0, 41] := by decide

/-- Claim C8 (amended): after any sequence of publishes whose last
publish is a well-delimited 9-byte frame `(` + payload + `)`, the
lock-guarded array and the packed word observe the same 9 bytes; before
the first publish the lock-guarded form yields the all-zero 9-byte
sample, whereas the packed form yields the delimiter-wrapped all-zero
payload. -/
theorem C8_forms_agree (l : List (List Nat)) (p : List Nat)
    (hp : p.length = 7) (hb : ∀ x ∈ p, x < 256) :
    lockRun (l ++ [40 :: p ++ [41]]) =
      tbLoad (packRun (l ++ [40 :: p ++ [41]])) [] ∧
    lockRun [] = List.replicate 9 0 ∧
    tbLoad (packRun []) [] = [40, 0, 0, 0, 0, 0, 0, 0, 41] := by
  refine ⟨?_, by decide, by decide⟩
  rw [lockRun, packRun, List.foldl_append, List.foldl_append]
  simp only [List.foldl]
  rw [tb_roundtrip_list _ _ p hp hb]
  simp [lockPublish, hp]

theorem C8_witness :
    (([66, 66, 66, 66, 66, 66, 66] : List Nat).length = 7 ∧
      ∀ x ∈ ([66, 66, 66, 66, 66, 66, 66] : List Nat), x < 256) ∧
    (lockRun ([[1, 2, 3]] ++ [40 :: [66, 66, 66, 66, 66, 66, 66] ++ [41]]) =
        tbLoad (packRun ([[1, 2, 3]] ++
          [40 :: [66, 66, 66, 66, 66, 66, 66] ++ [41]])) [] ∧
      lockRun [] = List.replicate 9 0 ∧
      tbLoad (packRun []) [] = [40, 0, 0, 0, 0, 0, 0, 0, 41]) :=
  ⟨⟨by decide, by decide⟩,
    C8_forms_agree [[1, 2, 3]] [66, 66, 66, 66, 66, 66, 66]
      (by decide) (by decide)⟩

/-- Claim C10: `TouchBuffer::load` ignores the prior buffer contents
(it clears first) and always produces exactly 9 bytes: `(`, the seven
most-significant bytes of the stored word in big-endian order, `)` —
a well-delimited sensor frame for every slot state. -/
theorem C10_load_shape (data : Nat) (buf : List Nat) :
    tbLoad data buf =
      40 :: [data / 2 ^ 56 % 256, data / 2 ^ 48 % 256, data / 2 ^ 40 % 256,
        data / 2 ^ 32 % 256, data / 2 ^ 24 % 256, data / 2 ^ 16 % 256,
        data / 2 ^ 8 % 256] ++ [41] ∧
    (tbLoad data buf).length = 9 ∧
    (tbLoad data buf).head? = some 40 ∧
    (tbLoad data buf).getLast? = some 41 ∧
    tbLoad data buf = tbLoad data [] := by
  refine ⟨rfl, ?_, ?_, ?_, rfl⟩ <;> simp [tbLoad, to_be_bytes]

/-! ## Drain lemmas -/

/-- One `read_until` call that consumes exactly one whole sensor frame
arriving as one chunk ending with `)`. -/
theorem read_until_chunk (inner : Nat) (g : List Nat) (fut : List Ev)
    (buf : List Nat) (acc : Nat) (hg : (41 : Nat) ∉ g) :
    read_until 41 (inner + 1) buf ⟨[], .chunk (g ++ [41]) :: fut⟩ acc =
      some (.ok (acc + (g.length + 1)), buf ++ (g ++ [41]), ⟨[], fut⟩) := by
  have hlen : (g ++ [41] : List Nat).length = g.length + 1 := by simp
  have htake : (g ++ [41] : List Nat).take (g.length + 1) = g ++ [41] := by
    rw [← hlen, List.take_length]
  have hdrop : (g ++ [41] : List Nat).drop (g.length + 1) = [] := by
    rw [← hlen, List.drop_length]
  simp only [read_until, fillBuf, if_true, if_false, eq_self_iff_true,
    memchr_append_cons 41 g [] hg, Rdr.consume, htake, hdrop]

/-- The drain loop consumes one chunked frame per iteration, then meets
the terminating error event: a timeout ends it with `Ok`, any other
error is returned. -/
theorem drainLoop_frames (frames : List (List Nat)) (fut : List Ev)
    (e : ErrKind) (he : e ≠ .interrupted)
    (hf : ∀ f ∈ frames, ∃ g, f = g ++ [41] ∧ (41 : Nat) ∉ g) :
    drainLoop 1 (frames.length + 1)
      ⟨[], frames.map .chunk ++ .ioerr e :: fut⟩ =
      some (if e = .timedOut then .ok () else .err e, ⟨[], fut⟩) := by
  induction frames with
  | nil =>
    simp only [List.map_nil, List.nil_append, List.length_nil]
    cases e with
    | timedOut => rfl
    | interrupted => exact absurd rfl he
    | other c => rfl
  | cons f fs ih =>
    obtain ⟨g, hfg, hg⟩ := hf f (List.mem_cons_self f fs)
    subst hfg
    have hfs : ∀ f ∈ fs, ∃ g, f = g ++ [41] ∧ (41 : Nat) ∉ g :=
      fun f hm => hf f (List.mem_cons_of_mem _ hm)
    simp only [List.map_cons, List.cons_append, List.length_cons]
    rw [show fs.length + 1 + 1 = (fs.length + 1) + 1 by rfl]
    simp only [drainLoop, read_until_chunk 0 g (fs.map .chunk ++ .ioerr e :: fut)
      [] 0 hg]
    exact ih hfs

/-! ## Error-free streams never end the drain loop -/

/-- Consuming buffered bytes does not change the events ahead. -/
theorem errFreeB_consume (r : Rdr) (n : Nat) :
    errFreeB (r.consume n) = errFreeB r := by
  simp [errFreeB, Rdr.consume]

/-- On an error-free stream, `fill_buf` succeeds and leaves an
error-free stream. -/
theorem fillBuf_errFree (r : Rdr) (h : errFreeB r = true) :
    ∃ bs r', fillBuf r = (.ok bs, r') ∧ errFreeB r' = true := by
  rcases r with ⟨p0, fut⟩
  by_cases hp : p0 = []
  · subst hp
    cases fut with
    | nil => exact ⟨[], ⟨[], []⟩, rfl, h⟩
    | cons ev rest =>
      cases ev with
      | chunk bs =>
        refine ⟨bs, ⟨bs, rest⟩, by simp [fillBuf], ?_⟩
        simpa [errFreeB] using h
      | ioerr e => simp [errFreeB] at h
  · exact ⟨p0, ⟨p0, fut⟩, by simp [fillBuf, hp], h⟩

/-- On an error-free stream, `read_until` either runs out of fuel or
succeeds, leaving an error-free stream; it never returns an error. -/
theorem read_until_errFree (d : Nat) : ∀ (inner acc : Nat) (buf : List Nat)
    (r : Rdr), errFreeB r = true →
    read_until d inner buf r acc = none ∨
    ∃ n buf' r', read_until d inner buf r acc = some (.ok n, buf', r') ∧
      errFreeB r' = true := by
  intro inner
  induction inner with
  | zero => intro acc buf r _; left; rfl
  | succ m ih =>
    intro acc buf r h
    obtain ⟨bs, r', hfb, hef⟩ := fillBuf_errFree r h
    rcases hm : memchr d bs with _ | i
    · by_cases h0 : bs.length = 0
      · right
        refine ⟨acc, buf, r'.consume 0, ?_, ?_⟩
        · simp only [read_until, hfb, hm, h0, if_true, if_false,
            eq_self_iff_true]
        · rw [errFreeB_consume]; exact hef
      · have hef' : errFreeB (r'.consume bs.length) = true := by
          rw [errFreeB_consume]; exact hef
        rcases ih (acc + bs.length) (buf ++ bs) (r'.consume bs.length) hef'
          with hnone | ⟨n, buf', r'', heq, hef''⟩
        · left
          simp only [read_until, hfb, hm, h0, if_true, if_false,
            eq_self_iff_true, hnone]
        · right
          exact ⟨n, buf', r'',
            by simp only [read_until, hfb, hm, h0, if_true, if_false,
              eq_self_iff_true, heq], hef''⟩
    · right
      refine ⟨acc + (i + 1), buf ++ bs.take (i + 1), r'.consume (i + 1),
        by simp only [read_until, hfb, hm], ?_⟩
      rw [errFreeB_consume]; exact hef

/-- On an error-free stream, the drain loop never returns: every amount
of fuel is exhausted. -/
theorem drainLoop_errFree (inner : Nat) : ∀ (fuel : Nat) (r : Rdr),
    errFreeB r = true → drainLoop inner fuel r = none := by
  intro fuel
  induction fuel with
  | zero => intro r _; rfl
  | succ m ih =>
    intro r h
    rcases read_until_errFree 41 inner 0 [] r h with
      hnone | ⟨n, buf', r', heq, hef⟩
    · simp only [drainLoop, hnone]
    · simp only [drainLoop, heq, ih r' hef]

/-! ## Remaining theorems -/

/-- Claim C6: on a sensor stream yielding N whole frames and then timing
out, `drain_and_reset` writes exactly one `{RSET}` frame then one
`{HALT}` frame, consumes all N frames, and returns `Ok`; if instead a
read fails with a non-timeout error, that error is returned (the frames
still all consumed, the two command frames still written). -/
theorem C6_drain_frames_then_timeout (frames : List (List Nat))
    (fut : List Ev) (c : Nat)
    (hf : ∀ f ∈ frames, ∃ g, f = g ++ [41] ∧ (41 : Nat) ∉ g) :
    drain_and_reset 1 (frames.length + 1)
        ⟨[], frames.map .chunk ++ .ioerr .timedOut :: fut⟩ =
      some (.ok (), ⟨[], fut⟩, RESET_COMMAND ++ HALT_COMMAND) ∧
    drain_and_reset 1 (frames.length + 1)
        ⟨[], frames.map .chunk ++ .ioerr (.other c) :: fut⟩ =
      some (.err (.other c), ⟨[], fut⟩, RESET_COMMAND ++ HALT_COMMAND) := by
  constructor
  · rw [drain_and_reset,
      drainLoop_frames frames fut .timedOut (by simp) hf]
    rfl
  · rw [drain_and_reset,
      drainLoop_frames frames fut (.other c) (by simp) hf]
    rfl

theorem C6_witness :
    (∀ f ∈ ([[40, 65, 41]] : List (List Nat)),
      ∃ g, f = g ++ [41] ∧ (41 : Nat) ∉ g) ∧
    (drain_and_reset 1 (([[40, 65, 41]] : List (List Nat)).length + 1)
        ⟨[], ([[40, 65, 41]] : List (List Nat)).map .chunk ++
          .ioerr .timedOut :: []⟩ =
      some (.ok (), ⟨[], []⟩, RESET_COMMAND ++ HALT_COMMAND) ∧
    drain_and_reset 1 (([[40, 65, 41]] : List (List Nat)).length + 1)
        ⟨[], ([[40, 65, 41]] : List (List Nat)).map .chunk ++
          .ioerr (.other 7) :: []⟩ =
      some (.err (.other 7), ⟨[], []⟩, RESET_COMMAND ++ HALT_COMMAND)) := by
  have hf : ∀ f ∈ ([[40, 65, 41]] : List (List Nat)),
      ∃ g, f = g ++ [41] ∧ (41 : Nat) ∉ g := by
    intro f hm
    simp only [List.mem_singleton] at hm
    subst hm
    exact ⟨[40, 65], by decide, by decide⟩
  exact ⟨hf, C6_drain_frames_then_timeout [[40, 65, 41]] [] 7 hf⟩

/-- Claim C9: the drain loop terminates only when a read fails: on any
stream whose future reads all succeed — in particular one at end of
data, where `read_until` keeps succeeding with zero bytes — it never
returns, whatever the fuel; and a read failing with a non-timeout error
does terminate it, returning that error. -/
theorem C9_drain_needs_read_error (inner fuel : Nat) (r : Rdr)
    (h : errFreeB r = true) :
    drain_and_reset inner fuel r = none ∧
    ∀ (c : Nat) (fut : List Ev),
      drain_and_reset 1 1 ⟨[], Ev.ioerr (ErrKind.other c) :: fut⟩ =
        some (.err (.other c), ⟨[], fut⟩, RESET_COMMAND ++ HALT_COMMAND) := by
  constructor
  · rw [drain_and_reset, drainLoop_errFree inner fuel r h]
  · intro c fut
    rfl

theorem C9_witness :
    errFreeB (Rdr.ofBytes []) = true ∧
    (drain_and_reset 1 5 (Rdr.ofBytes []) = none ∧
    ∀ (c : Nat) (fut : List Ev),
      drain_and_reset 1 1 ⟨[], Ev.ioerr (ErrKind.other c) :: fut⟩ =
        some (.err (.other c), ⟨[], fut⟩, RESET_COMMAND ++ HALT_COMMAND)) :=
  ⟨by decide, C9_drain_needs_read_error 1 5 (Rdr.ofBytes []) (by decide)⟩

end Maitouch
